import Mathlib

/-!
Verification of the work-record → timeline transformation engine of the
ado-gantt repository.

The embedding models the services that the specification describes:

* `GanttDataService.calculateDates` / `calculateProgress` /
  `convertToGanttItems` / `createGanttItem` / `extractGanttLinks` /
  `sortGanttItems` (src/unnamed/part_004, first file);
* `ProgressCalculationService.calculateProgressStatus` /
  `getWorkItemDates` (src/unnamed/part_003, second file);
* `IterationService.resolveIterationMacro` (src/src/services/IterationService.ts).

Modelling conventions:

* JavaScript `Date` values are modelled as `Int` millisecond timestamps
  (epoch based).  `date.setDate(date.getDate() + k)` for an integer `k`
  adds `k` whole days, i.e. `k * 86400000` milliseconds (assuming a fixed
  UTC offset; daylight-saving shifts are outside the model).  Where the
  code passes a *fractional* argument to `setDate`, the ECMA-262 `MakeDay` operation
  truncates it to an integer via `ToIntegerOrInfinity`; the call sites in
  this code base only ever pass `dayOfMonth + duration * 0.5` with
  `dayOfMonth ≥ 1` and `duration ≥ 1`, for which truncation toward zero
  equals the floor, so the model adds `duration / 2` whole days with
  floor-like integer division.
* JavaScript numbers for the work-tracking fields are modelled as `Rat`
  (exact arithmetic; the floating-point rounding of the ratio is not
  observable at the granularity of any claim).
* `Math.round` rounds half toward positive infinity: `jsRound q = ⌊q + 1/2⌋`.
* A fresh `new Date()` read (wall clock) is modelled by an explicit
  `clock : Int` argument at the reading function; this makes the hidden
  clock dependence of the code visible in the theorems.
* `undefined`-able fields become `Option`; the JavaScript truthiness test
  `workItem.parentId && …` is false for `undefined` and for `0`, which is
  modelled explicitly.
-/

namespace AdoGantt

/-- Milliseconds per day, `1000 * 60 * 60 * 24` in the source. -/
def msPerDay : Int := 1000 * 60 * 60 * 24

/-- JavaScript `Math.round`: round half toward positive infinity. -/
def jsRound (q : Rat) : Int := Int.floor (q + 1/2)

/-- The exact value of JavaScript `Math.ceil(a / b)` for integers `a` and
positive `b`: the ceiling of the rational `a / b`, computed as
`-((-a) / b)` with the floor-like integer division of Lean
(`jsCeilDiv_eq_ceil` below connects it to `Int.ceil` over `ℚ`). -/
def jsCeilDiv (a b : Int) : Int := -(-a / b)

/-- A work record (interface `WorkItem` of src/src/types, second file).
Presentation-only fields that no modelled function reads (`assignedTo`,
`areaPath`, `iterationPath`, `finishDate`, `changedDate`, `priority`,
`tags`, `description`, `successors`) are omitted. -/
structure WorkItem where
  id : Int
  title : String
  type : String
  state : String
  startDate : Option Int
  targetDate : Option Int
  createdDate : Option Int
  parentId : Option Int
  childrenIds : List Int
  predecessors : List Int
  remainingWork : Option Rat
  completedWork : Option Rat
  deriving Repr, DecidableEq

/-- A timeline row (interface `GanttItem`, SVAR shape: `id`, `text`,
`start`, `end`, `duration`, `progress`, `parent`, `type`, `open`,
`workItem`, `$css`).  The fields `end`, `open` and `$css` are renamed to
`endMs`, `openFlag` and `css` because Lean reserves those spellings. -/
structure GanttItem where
  id : Int
  text : String
  start : Int
  endMs : Int
  duration : Int
  progress : Int
  parent : Int
  type : String
  openFlag : Bool
  workItem : WorkItem
  css : String
  deriving Repr, DecidableEq

/-- A dependency edge (interface `GanttLink`). -/
structure GanttLink where
  id : Int
  source : Int
  target : Int
  type : String
  deriving Repr, DecidableEq

/-- Embedding of `GanttDataService.calculateDates` (src/unnamed/part_004 lines 143-177).
Returns `(startDate, endDate, duration)`.  The `clock` argument models the
`new Date()` fallback taken when `startDate`, `targetDate` and
`createdDate` are all absent. -/
def calculateDates (clock : Int) (wi : WorkItem) : Int × Int × Int :=
  let se : Int × Int :=
    match wi.startDate, wi.targetDate with
    | some s, some t => (s, t)
    | some s, none => (s, s + 5 * msPerDay)
    | none, some t => (t - 5 * msPerDay, t)
    | none, none =>
      let s := wi.createdDate.getD clock
      (s, s + 5 * msPerDay)
  let s := se.1
  let e := if se.2 ≤ s then s + msPerDay else se.2
  (s, e, jsCeilDiv (e - s) msPerDay)

/-- Embedding of `GanttDataService.calculateProgress` (src/unnamed/part_004 lines
179-205).  The `switch` has no `default` case: a state matching none of
the listed literals falls through to the work-based calculation, exactly
like `Active` and `Doing`. -/
def calculateProgress (wi : WorkItem) : Int :=
  if wi.state = "New" ∨ wi.state = "To Do" then 0
  else if wi.state = "Resolved" then 90
  else if wi.state = "Closed" ∨ wi.state = "Done" then 100
  else if wi.state = "Removed" then 0
  else
    match wi.completedWork, wi.remainingWork with
    | some c, some r =>
      let total := c + r
      if 0 < total then jsRound (c / total * 100) else 50
    | _, _ => 50

/-- Embedding of `ProgressCalculationService.getWorkItemDates` (src/unnamed/part_003
lines 282-316); its body is identical to `calculateDates` above. -/
def getWorkItemDates (clock : Int) (wi : WorkItem) : Int × Int × Int :=
  let se : Int × Int :=
    match wi.startDate, wi.targetDate with
    | some s, some t => (s, t)
    | some s, none => (s, s + 5 * msPerDay)
    | none, some t => (t - 5 * msPerDay, t)
    | none, none =>
      let s := wi.createdDate.getD clock
      (s, s + 5 * msPerDay)
  let s := se.1
  let e := if se.2 ≤ s then s + msPerDay else se.2
  (s, e, jsCeilDiv (e - s) msPerDay)

/-- Embedding of `ProgressCalculationService.calculateProgressStatus`
(src/unnamed/part_003 lines 245-277).  `clock` models the internal
`const currentDate = new Date()` read (line 246) and the date fallback.
The midpoint is computed by
`midpoint.setDate(startDate.getDate() + duration * 0.5)`, which adds
`⌊duration / 2⌋` whole days because `setDate` truncates its argument to
an integer (see the module header); `dur / 2` below is the floor-like
integer division of Lean, which equals that value since `dur ≥ 1` here. -/
def calculateProgressStatus (clock : Int) (wi : WorkItem) : String :=
  if wi.state = "Closed" ∨ wi.state = "Resolved" then "Done"
  else if wi.state = "New" then "Not Started"
  else
    let sed := getWorkItemDates clock wi
    let s := sed.1
    let e := sed.2.1
    let dur := sed.2.2
    if e ≤ clock then "Off Track"
    else
      let midpoint := s + dur / 2 * msPerDay
      if midpoint ≤ clock ∧ clock < e then "At Risk" else "On Track"

/-- Truthiness of an optional JavaScript number: `undefined` and `0` are
falsy. -/
def optTruthy : Option Int → Bool
  | none => false
  | some v => v != 0

/-- Membership of an id in the data set: `validIds.has(k)` and
`itemMap.has(k)` both hold exactly when some record of the collection has
that id. -/
def wsHasId (ws : List WorkItem) (k : Int) : Bool :=
  ws.any fun x => x.id == k

/-- Lookup `itemMap.get k` where `itemMap` is built by
`workItems.forEach(wi => itemMap.set(wi.id, wi))`: the last record with a
given id wins. -/
def mapGet (ws : List WorkItem) (k : Int) : Option WorkItem :=
  ws.foldl (fun acc wi => if wi.id == k then some wi else acc) none

/-- The `parentIds` set of `convertToGanttItems` (src/unnamed/part_004
lines 26-37), as a list whose membership is the set membership: the truthy
`parentId` of a record that is present in the data set, and the id of any
record one of whose `childrenIds` is present in the data set. -/
def parentIdsList (ws : List WorkItem) : List Int :=
  ws.flatMap fun wi =>
    (match wi.parentId with
     | some p => if p != 0 && wsHasId ws p then [p] else []
     | none => []) ++
    (if wi.childrenIds.any (fun c => wsHasId ws c) then [wi.id] else [])

/-- The validated parent id
`workItem.parentId && validIds.has(workItem.parentId) ? workItem.parentId : 0`
(src/unnamed/part_004 lines 47 and 58). -/
def validParentOf (ws : List WorkItem) (wi : WorkItem) : Int :=
  match wi.parentId with
  | some p => if p != 0 && wsHasId ws p then p else 0
  | none => 0

/-- Lower-cases a string and replaces every maximal run of whitespace by a
single `-`: `s.toLowerCase().replace(/\s+/g, '-')`.  The boolean flag
records whether the previous character belonged to a whitespace run. -/
def collapseWsAux : Bool → List Char → List Char
  | _, [] => []
  | prevWs, c :: rest =>
    if c.isWhitespace then
      (if prevWs then [] else ['-']) ++ collapseWsAux true rest
    else c.toLower :: collapseWsAux false rest

/-- Embedding of `GanttDataService.buildCssClasses` (src/unnamed/part_004
lines 100-112). -/
def buildCssClasses (wi : WorkItem) : String :=
  let typeClass := "gantt-task-" ++ String.mk (collapseWsAux false wi.type.toList)
  let stateClass := "gantt-state-" ++ String.mk (collapseWsAux false wi.state.toList)
  String.intercalate " " [typeClass, stateClass]

/-- Embedding of `GanttDataService.createGanttItem` (src/unnamed/part_004
lines 69-95). -/
def createGanttItem (clock : Int) (wi : WorkItem) (hasChildren : Bool)
    (validParentId : Int) : GanttItem :=
  let sed := calculateDates clock wi
  { id := wi.id
    text := wi.title
    start := sed.1
    endMs := sed.2.1
    duration := sed.2.2
    progress := calculateProgress wi
    parent := validParentId
    type := if hasChildren then "summary" else "task"
    openFlag := true
    workItem := wi
    css := buildCssClasses wi }

/-- The main loop of `GanttDataService.convertToGanttItems`
(src/unnamed/part_004 lines 42-64): iterate over the records, skip already
processed ids, emit a row per record, and back-fill the parent of the record
(one hop) when it has not been processed yet. -/
def convertLoop (clock : Int) (ws : List WorkItem) :
    List WorkItem → List Int → List GanttItem
  | [], _ => []
  | wi :: rest, processed =>
    if processed.contains wi.id then convertLoop clock ws rest processed
    else
      let item := createGanttItem clock wi ((parentIdsList ws).contains wi.id)
        (validParentOf ws wi)
      let processed1 := wi.id :: processed
      match wi.parentId with
      | some p =>
        if p != 0 && !(processed1.contains p) then
          match mapGet ws p with
          | some parent =>
            item ::
              createGanttItem clock parent ((parentIdsList ws).contains parent.id)
                (validParentOf ws parent) ::
              convertLoop clock ws rest (parent.id :: processed1)
          | none => item :: convertLoop clock ws rest processed1
        else item :: convertLoop clock ws rest processed1
      | none => item :: convertLoop clock ws rest processed1

/-- The comparator of `GanttDataService.sortGanttItems`
(src/unnamed/part_004 lines 207-217), as a total preorder: rows that some
row of the full list points at as parent sort first, ties broken by
ascending start. -/
def rowLE (items : List GanttItem) (a b : GanttItem) : Bool :=
  let aHasChildren := items.any fun i => i.parent == a.id
  let bHasChildren := items.any fun i => i.parent == b.id
  if aHasChildren && !bHasChildren then true
  else if !aHasChildren && bHasChildren then false
  else decide (a.start ≤ b.start)

/-- Embedding of `GanttDataService.sortGanttItems`: a stable sort (required by
ECMAScript for `Array.prototype.sort`) with the comparator above. -/
def sortGanttItems (items : List GanttItem) : List GanttItem :=
  List.insertionSort (fun a b => rowLE items a b = true) items

/-- Embedding of `GanttDataService.convertToGanttItems` (src/unnamed/part_004
lines 18-67). -/
def convertToGanttItems (clock : Int) (ws : List WorkItem) : List GanttItem :=
  sortGanttItems (convertLoop clock ws ws [])

/-- The inner loop of `extractGanttLinks` over the `predecessors`
of one record, threading the `linkId` counter. -/
def linksForItem (itemIds : List Int) (wi : WorkItem) :
    List Int → Int → List GanttLink
  | [], _ => []
  | p :: ps, nextId =>
    if itemIds.contains p && itemIds.contains wi.id then
      { id := nextId, source := p, target := wi.id, type := "e2s" } ::
        linksForItem itemIds wi ps (nextId + 1)
    else linksForItem itemIds wi ps nextId

/-- The outer loop of `extractGanttLinks` over the record collection. -/
def extractLoop (itemIds : List Int) : List WorkItem → Int → List GanttLink
  | [], _ => []
  | wi :: rest, nextId =>
    let here := linksForItem itemIds wi wi.predecessors nextId
    here ++ extractLoop itemIds rest (nextId + here.length)

/-- Embedding of `GanttDataService.extractGanttLinks` (src/unnamed/part_004
lines 118-141): `itemIds` is the id set of the converted rows, the counter
starts at 1. -/
def extractGanttLinks (ws : List WorkItem) (items : List GanttItem) :
    List GanttLink :=
  extractLoop (items.map fun i => i.id) ws 1

/-- Embedding of `GanttDataService.convertToGanttData` (src/unnamed/part_004
lines 12-16). -/
def convertToGanttData (clock : Int) (ws : List WorkItem) :
    List GanttItem × List GanttLink :=
  let items := convertToGanttItems clock ws
  (items, extractGanttLinks ws items)

/-- An iteration period (interface `IterationInfo` of
src/src/services/IterationService.ts). -/
structure IterationInfo where
  id : String
  name : String
  path : String
  startDate : Option Int
  finishDate : Option Int
  isCurrent : Bool
  deriving Repr, DecidableEq

/-- The literal part of the pattern
`/@CurrentIteration(?:\s*([+-])\s*(\d+))?/i`, lower-cased. -/
def markerChars : List Char := "@currentiteration".toList

/-- Case-insensitive literal match of `pat` at the head of `text`
(`pat` is already lower-case). -/
def matchesLowerAt : List Char → List Char → Bool
  | [], _ => true
  | _ :: _, [] => false
  | p :: ps, c :: cs => p == c.toLower && matchesLowerAt ps cs

/-- Numeric value of a digit run, as `parseInt` computes it. -/
def digitsVal (l : List Char) : Int :=
  l.foldl (fun a c => a * 10 + ((c.toNat : Int) - 48)) 0

/-- The optional group `(?:\s*([+-])\s*(\d+))?` of the macro pattern,
matched right after the literal: greedy whitespace, a mandatory sign,
greedy whitespace, at least one digit.  (Greedy matching with no
backtracking is exact here because a sign or digit is never whitespace.)
Returns the signed offset `parseInt(sign ++ digits, 10)` on success. -/
def parseOffsetAfter (l : List Char) : Option Int :=
  match l.dropWhile Char.isWhitespace with
  | [] => none
  | c :: cs =>
    if c == '+' || c == '-' then
      let ds := (cs.dropWhile Char.isWhitespace).takeWhile Char.isDigit
      if ds.isEmpty then none
      else some (if c == '-' then -(digitsVal ds) else digitsVal ds)
    else none

/-- Models `macro.match(/@CurrentIteration(?:\s*([+-])\s*(\d+))?/i)`, reduced to
the information the caller uses: `none` when the pattern matches nowhere
in the string, otherwise the offset of the leftmost match (`0` when the
optional sign/number group is absent there). -/
def findMarkerOffset : List Char → Option Int
  | [] => none
  | c :: cs =>
    if matchesLowerAt markerChars (c :: cs) then
      some ((parseOffsetAfter ((c :: cs).drop markerChars.length)).getD 0)
    else findMarkerOffset cs

/-- The index `iterations.findIndex(i => i.isCurrent)` as an option. -/
def findCurrentIdx (its : List IterationInfo) : Option Nat :=
  its.findIdx? fun i => i.isCurrent

/-- The date-based fallback
`iterations.findIndex(i => i.startDate && i.finishDate ? now >= i.startDate && now <= i.finishDate : false)`. -/
def findActiveIdx (now : Int) (its : List IterationInfo) : Option Nat :=
  its.findIdx? fun i =>
    match i.startDate, i.finishDate with
    | some sd, some fd => decide (sd ≤ now ∧ now ≤ fd)
    | _, _ => false

/-- Embedding of `IterationService.resolveIterationMacro`
(src/src/services/IterationService.ts lines 52-99).  `now` models the
internal `new Date()` read of the fallback branch; the iteration calendar
(fetched through the ADO API in the source) is a parameter.  Returns
`none` for the JavaScript `null`. -/
def resolveIteration (now : Int) (its : List IterationInfo) (s : String) :
    Option String :=
  match findMarkerOffset s.toList with
  | none => some s
  | some off =>
    if its.isEmpty then none
    else
      match findCurrentIdx its with
      | some ci =>
        let ti : Int := (ci : Int) + off
        if ti < 0 ∨ (its.length : Int) ≤ ti then none
        else
          match its.get? ti.toNat with
          | some it => some it.path
          | none => none
      | none =>
        match findActiveIdx now its with
        | none => none
        | some ai =>
          let ti : Int := (ai : Int) + off
          if ti < 0 ∨ (its.length : Int) ≤ ti then none
          else
            match its.get? ti.toNat with
            | some it => some it.path
            | none => none

/-! ## Spec-side definitions and proof helpers -/

/-- Spec-side restatement of the date-resolution rules of §4.1, written
from the words of the specification for a record whose `createdDate` is the
value `c`: both dates present → used as-is; only start → end = start + 5
days; only target → start = target − 5 days; neither → start =
createdDate, end = start + 5 days; post-condition: if end ≤ start, end is
forced to start + 1 day; durationDays = ceil((end − start) in whole
days). -/
def specResolveDates (wi : WorkItem) (c : Int) : Int × Int × Int :=
  let se : Int × Int :=
    match wi.startDate, wi.targetDate with
    | some s, some t => (s, t)
    | some s, none => (s, s + 5 * msPerDay)
    | none, some t => (t - 5 * msPerDay, t)
    | none, none => (c, c + 5 * msPerDay)
  let s := se.1
  let e := if se.2 ≤ s then s + msPerDay else se.2
  (s, e, Int.ceil (((e - s : Int) : Rat) / (msPerDay : Rat)))

/-- Spec-side "current" index of §4.6: the first period flagged
`isCurrent`, falling back to the first period whose date interval contains
`now`. -/
def specCurrentIndex (now : Int) (its : List IterationInfo) : Option Nat :=
  match findCurrentIdx its with
  | some i => some i
  | none => findActiveIdx now its

/-- The list `n, n+1, …, n+len-1`: the value taken by a monotonically
increasing counter over `len` emissions. -/
def intRange (n : Int) : Nat → List Int
  | 0 => []
  | len + 1 => n :: intRange (n + 1) len

/-! ## Concrete inputs used by counterexamples and witnesses -/

/-- A template record; individual examples override its fields. -/
def baseRecord : WorkItem :=
  { id := 1, title := "a", type := "Task", state := "Active",
    startDate := none, targetDate := none, createdDate := some 0,
    parentId := none, childrenIds := [], predecessors := [],
    remainingWork := none, completedWork := none }

/-- Record with `start = target = 2026-01-01T00:00Z` (1767225600000 ms). -/
def exSameDates : WorkItem :=
  { baseRecord with startDate := some 1767225600000,
                    targetDate := some 1767225600000,
                    createdDate := some 1767225600000 }

/-- Record in a state that matches no `case` of `calculateProgress`. -/
def exUnknownState : WorkItem := { baseRecord with state := "Committed" }

/-- Active record with `completedWork = 3`, `remainingWork = 1`. -/
def exActiveWork : WorkItem :=
  { baseRecord with state := "Active", completedWork := some 3,
                    remainingWork := some 1 }

/-- Active record with a negative `completedWork`. -/
def exNegWork : WorkItem :=
  { baseRecord with state := "Active", completedWork := some (-1),
                    remainingWork := some 2 }

/-- The extreme example of the specification: `remainingWork = 999999`,
`completedWork = 1`. -/
def exExtremeWork : WorkItem :=
  { baseRecord with state := "Active", completedWork := some 1,
                    remainingWork := some 999999 }

/-- Active record spanning five days (start at epoch 0, target at
432000000 ms): its resolved duration is the odd number 5. -/
def exOddDuration : WorkItem :=
  { baseRecord with state := "Active", startDate := some 0,
                    targetDate := some 432000000 }

/-- The health example of the specification: Active,
start = 2026-01-01 (1767225600000), target = 2026-01-31
(1769817600000). -/
def exJanuary : WorkItem :=
  { baseRecord with state := "Active", startDate := some 1767225600000,
                    targetDate := some 1769817600000 }

/-- The same record in state Closed. -/
def exJanuaryClosed : WorkItem := { exJanuary with state := "Closed" }

/-- Two records where record 1 lists record 2 in `childrenIds` but record
2 does not point back through `parentId`. -/
def wsChildrenOnly : List WorkItem :=
  [ { baseRecord with id := 1, state := "New", childrenIds := [2] },
    { baseRecord with id := 2, title := "b", startDate := some 0,
                      targetDate := some 0 } ]

/-- The summary row that conversion produces for record 1 of
`wsChildrenOnly`. -/
def exSummaryRow : GanttItem :=
  { id := 1, text := "a", start := 0, endMs := 432000000, duration := 5,
    progress := 0, parent := 0, type := "summary", openFlag := true,
    workItem := { baseRecord with id := 1, state := "New", childrenIds := [2] },
    css := "gantt-task-task gantt-state-new" }

/-- The orphan example of the specification: record 5 points at the absent
parent 99999. -/
def wsOrphan : List WorkItem :=
  [ { baseRecord with id := 5, parentId := some 99999 },
    { baseRecord with id := 2, title := "b" } ]

/-- Two records with predecessor lists mixing present and absent ids. -/
def wsLinks : List WorkItem :=
  [ { baseRecord with id := 1, predecessors := [2, 77, 1] },
    { baseRecord with id := 2, title := "b", predecessors := [1] } ]

/-- The calendar of the specification `[S1 (not current), S2 (current), S3]`. -/
def calThree : List IterationInfo :=
  [ { id := "1", name := "S1", path := "S1", startDate := some 0,
      finishDate := some 10, isCurrent := false },
    { id := "2", name := "S2", path := "S2", startDate := some 10,
      finishDate := some 20, isCurrent := true },
    { id := "3", name := "S3", path := "S3", startDate := some 20,
      finishDate := some 30, isCurrent := false } ]

/-! ## Helper lemmas -/

theorem wsHasId_iff {ws : List WorkItem} {k : Int} :
    wsHasId ws k = true ↔ k ∈ ws.map fun x => x.id := by
  simp [wsHasId, List.any_eq_true, List.mem_map]

theorem containsInt_iff {l : List Int} {k : Int} :
    l.contains k = true ↔ k ∈ l := List.elem_iff

theorem calculateDates_lt (clock : Int) (wi : WorkItem) :
    (calculateDates clock wi).1 < (calculateDates clock wi).2.1 := by
  rcases h1 : wi.startDate with _ | s <;> rcases h2 : wi.targetDate with _ | t <;>
    · simp [calculateDates, h1, h2, msPerDay]
      all_goals split <;> omega

/-- The row that conversion emits for a record `wi` of the working set
`ws`: `createGanttItem` applied to the has-children flag and validated
parent id that both the main loop and the back-fill compute. -/
def rowFor (clock : Int) (ws : List WorkItem) (wi : WorkItem) : GanttItem :=
  createGanttItem clock wi ((parentIdsList ws).contains wi.id) (validParentOf ws wi)

theorem mapGet_aux (k : Int) (w : WorkItem) :
    ∀ (ws : List WorkItem) (acc : Option WorkItem),
      ws.foldl (fun acc wi => if wi.id == k then some wi else acc) acc = some w →
      (w ∈ ws ∧ w.id = k) ∨ acc = some w := by
  intro ws
  induction ws with
  | nil => intro acc h; exact Or.inr h
  | cons x xs ih =>
    intro acc h
    simp only [List.foldl_cons] at h
    rcases ih _ h with h1 | h2
    · exact Or.inl ⟨List.mem_cons_of_mem _ h1.1, h1.2⟩
    · by_cases hx : x.id == k
      · rw [if_pos hx] at h2
        obtain rfl : x = w := Option.some.inj h2
        exact Or.inl ⟨List.mem_cons_self _ _, by simpa using hx⟩
      · rw [if_neg hx] at h2
        exact Or.inr h2

theorem mapGet_some {ws : List WorkItem} {k : Int} {w : WorkItem}
    (h : mapGet ws k = some w) : w ∈ ws ∧ w.id = k := by
  rcases mapGet_aux k w ws none h with h1 | h2
  · exact h1
  · exact Option.noConfusion h2

theorem convertLoop_shape (clock : Int) (ws : List WorkItem) :
    ∀ (pending : List WorkItem) (processed : List Int) (g : GanttItem),
      (∀ wi ∈ pending, wi ∈ ws) →
      g ∈ convertLoop clock ws pending processed →
      ∃ wi ∈ ws, g = rowFor clock ws wi := by
  intro pending
  induction pending with
  | nil =>
    intro processed g _ hg
    simp [convertLoop] at hg
  | cons wi rest ih =>
    intro processed g hsub hg
    have hwi : wi ∈ ws := hsub wi (List.mem_cons_self _ _)
    have hrest : ∀ x ∈ rest, x ∈ ws := fun x hx => hsub x (List.mem_cons_of_mem _ hx)
    by_cases hp : processed.contains wi.id
    · rw [convertLoop, if_pos hp] at hg
      exact ih _ _ hrest hg
    · rcases hpar : wi.parentId with _ | p
      · rw [convertLoop, if_neg hp, hpar] at hg
        rcases List.mem_cons.mp hg with rfl | hg2
        · exact ⟨wi, hwi, rfl⟩
        · exact ih _ _ hrest hg2
      · rw [convertLoop, if_neg hp, hpar] at hg
        by_cases hbf : p != 0 && !((wi.id :: processed).contains p)
        · rcases hmg : mapGet ws p with _ | parent
          · simp only [hbf, if_true, hmg] at hg
            rcases List.mem_cons.mp hg with rfl | hg2
            · exact ⟨wi, hwi, rfl⟩
            · exact ih _ _ hrest hg2
          · simp only [hbf, if_true, hmg] at hg
            rcases List.mem_cons.mp hg with rfl | hg2
            · exact ⟨wi, hwi, rfl⟩
            · rcases List.mem_cons.mp hg2 with rfl | hg3
              · exact ⟨parent, (mapGet_some hmg).1, rfl⟩
              · exact ih _ _ hrest hg3
        · simp only [Bool.not_eq_true] at hbf
          simp only [hbf, Bool.false_eq_true, if_false] at hg
          rcases List.mem_cons.mp hg with rfl | hg2
          · exact ⟨wi, hwi, rfl⟩
          · exact ih _ _ hrest hg2


theorem createGanttItem_id (clock : Int) (wi : WorkItem) (hc : Bool) (vp : Int) :
    (createGanttItem clock wi hc vp).id = wi.id := rfl

theorem convertLoop_nodup (clock : Int) (ws : List WorkItem) :
    ∀ (pending : List WorkItem) (processed : List Int),
      ((convertLoop clock ws pending processed).map fun g => g.id).Nodup ∧
      ∀ i ∈ (convertLoop clock ws pending processed).map fun g => g.id,
        i ∉ processed := by
  intro pending
  induction pending with
  | nil => intro processed; simp [convertLoop]
  | cons wi rest ih =>
    intro processed
    by_cases hp : processed.contains wi.id
    · rw [convertLoop, if_pos hp]; exact ih processed
    · have hpmem : wi.id ∉ processed := fun hm => hp (containsInt_iff.mpr hm)
      rcases hpar : wi.parentId with _ | p
      · rw [convertLoop, if_neg hp, hpar]
        obtain ⟨ihn, ihd⟩ := ih (wi.id :: processed)
        refine ⟨?_, ?_⟩
        · simp only [List.map_cons, List.nodup_cons, createGanttItem_id]
          exact ⟨fun hmem => (ihd _ hmem) (List.mem_cons_self _ _), ihn⟩
        · intro i hi
          simp only [List.map_cons, List.mem_cons, createGanttItem_id] at hi
          rcases hi with rfl | hi2
          · exact hpmem
          · intro hip
            exact (ihd _ hi2) (List.mem_cons_of_mem _ hip)
      · rw [convertLoop, if_neg hp, hpar]
        by_cases hbf : p != 0 && !((wi.id :: processed).contains p)
        · have hpn : p ∉ wi.id :: processed := by
            have h2 := (Bool.and_eq_true _ _).mp hbf
            rw [Bool.not_eq_true'] at h2
            intro hm
            have hc := containsInt_iff.mpr hm
            rw [h2.2] at hc
            exact absurd hc (by decide)
          rcases hmg : mapGet ws p with _ | parent
          · simp only [hbf, if_true, hmg]
            obtain ⟨ihn, ihd⟩ := ih (wi.id :: processed)
            refine ⟨?_, ?_⟩
            · simp only [List.map_cons, List.nodup_cons, createGanttItem_id]
              exact ⟨fun hmem => (ihd _ hmem) (List.mem_cons_self _ _), ihn⟩
            · intro i hi
              simp only [List.map_cons, List.mem_cons, createGanttItem_id] at hi
              rcases hi with rfl | hi2
              · exact hpmem
              · intro hip
                exact (ihd _ hi2) (List.mem_cons_of_mem _ hip)
          · have hpid : parent.id = p := (mapGet_some hmg).2
            simp only [hbf, if_true, hmg]
            obtain ⟨ihn, ihd⟩ := ih (parent.id :: wi.id :: processed)
            refine ⟨?_, ?_⟩
            · simp only [List.map_cons, List.nodup_cons, createGanttItem_id,
                List.mem_cons]
              refine ⟨?_, ?_, ihn⟩
              · rintro (h1 | h2)
                · refine hpn ?_
                  rw [show p = wi.id from (h1.trans hpid).symm]
                  exact List.mem_cons_self _ _
                · exact (ihd _ h2)
                    (List.mem_cons_of_mem _ (List.mem_cons_self _ _))
              · intro hmem
                exact (ihd _ hmem) (List.mem_cons_self _ _)
            · intro i hi
              simp only [List.map_cons, List.mem_cons, createGanttItem_id] at hi
              rcases hi with rfl | rfl | hi3
              · exact hpmem
              · rw [hpid]
                exact fun hm => hpn (List.mem_cons_of_mem _ hm)
              · intro hip
                exact (ihd _ hi3)
                  (List.mem_cons_of_mem _ (List.mem_cons_of_mem _ hip))
        · simp only [Bool.not_eq_true] at hbf
          simp only [hbf, Bool.false_eq_true, if_false]
          obtain ⟨ihn, ihd⟩ := ih (wi.id :: processed)
          refine ⟨?_, ?_⟩
          · simp only [List.map_cons, List.nodup_cons, createGanttItem_id]
            exact ⟨fun hmem => (ihd _ hmem) (List.mem_cons_self _ _), ihn⟩
          · intro i hi
            simp only [List.map_cons, List.mem_cons, createGanttItem_id] at hi
            rcases hi with rfl | hi2
            · exact hpmem
            · intro hip
              exact (ihd _ hi2) (List.mem_cons_of_mem _ hip)


theorem convertLoop_covers (clock : Int) (ws : List WorkItem) :
    ∀ (pending : List WorkItem) (processed : List Int) (wi : WorkItem),
      wi ∈ pending →
      wi.id ∈ ((convertLoop clock ws pending processed).map fun g => g.id) ∨
        wi.id ∈ processed := by
  intro pending
  induction pending with
  | nil => intro processed wi h; cases h
  | cons x rest ih =>
    intro processed wi hmem
    by_cases hp : processed.contains x.id
    · rw [convertLoop, if_pos hp]
      rcases List.mem_cons.mp hmem with rfl | h2
      · exact Or.inr (containsInt_iff.mp hp)
      · exact ih processed wi h2
    · rcases hpar : x.parentId with _ | p
      · rw [convertLoop, if_neg hp, hpar]
        rcases List.mem_cons.mp hmem with rfl | h2
        · left
          simp only [List.map_cons, List.mem_cons, createGanttItem_id]
          exact Or.inl trivial
        · rcases ih (x.id :: processed) wi h2 with h3 | h3
          · left
            simp only [List.map_cons, List.mem_cons, createGanttItem_id]
            exact Or.inr h3
          · rcases List.mem_cons.mp h3 with h4 | h5
            · left
              simp only [List.map_cons, List.mem_cons, createGanttItem_id]
              exact Or.inl h4
            · exact Or.inr h5
      · rw [convertLoop, if_neg hp, hpar]
        by_cases hbf : p != 0 && !((x.id :: processed).contains p)
        · rcases hmg : mapGet ws p with _ | parent
          · simp only [hbf, if_true, hmg]
            rcases List.mem_cons.mp hmem with rfl | h2
            · left
              simp only [List.map_cons, List.mem_cons, createGanttItem_id]
              exact Or.inl trivial
            · rcases ih (x.id :: processed) wi h2 with h3 | h3
              · left
                simp only [List.map_cons, List.mem_cons, createGanttItem_id]
                exact Or.inr h3
              · rcases List.mem_cons.mp h3 with h4 | h5
                · left
                  simp only [List.map_cons, List.mem_cons, createGanttItem_id]
                  exact Or.inl h4
                · exact Or.inr h5
          · simp only [hbf, if_true, hmg]
            rcases List.mem_cons.mp hmem with rfl | h2
            · left
              simp only [List.map_cons, List.mem_cons, createGanttItem_id]
              exact Or.inl trivial
            · rcases ih (parent.id :: x.id :: processed) wi h2 with h3 | h3
              · left
                simp only [List.map_cons, List.mem_cons, createGanttItem_id]
                exact Or.inr (Or.inr h3)
              · rcases List.mem_cons.mp h3 with h4 | h5
                · left
                  simp only [List.map_cons, List.mem_cons, createGanttItem_id]
                  exact Or.inr (Or.inl h4)
                · rcases List.mem_cons.mp h5 with h6 | h7
                  · left
                    simp only [List.map_cons, List.mem_cons, createGanttItem_id]
                    exact Or.inl h6
                  · exact Or.inr h7
        · simp only [Bool.not_eq_true] at hbf
          simp only [hbf, Bool.false_eq_true, if_false]
          rcases List.mem_cons.mp hmem with rfl | h2
          · left
            simp only [List.map_cons, List.mem_cons, createGanttItem_id]
            exact Or.inl trivial
          · rcases ih (x.id :: processed) wi h2 with h3 | h3
            · left
              simp only [List.map_cons, List.mem_cons, createGanttItem_id]
              exact Or.inr h3
            · rcases List.mem_cons.mp h3 with h4 | h5
              · left
                simp only [List.map_cons, List.mem_cons, createGanttItem_id]
                exact Or.inl h4
              · exact Or.inr h5

theorem convert_perm (clock : Int) (ws : List WorkItem) :
    (convertToGanttItems clock ws).Perm (convertLoop clock ws ws []) :=
  List.perm_insertionSort _ _


theorem mem_parentIdsList {ws : List WorkItem} {i : Int} :
    i ∈ parentIdsList ws ↔
      (∃ w ∈ ws, w.parentId = some i ∧ i ≠ 0 ∧ (i ∈ ws.map fun x => x.id)) ∨
      (∃ w ∈ ws, w.id = i ∧ ∃ c ∈ w.childrenIds, c ∈ ws.map fun x => x.id) := by
  rw [parentIdsList, List.mem_flatMap]
  constructor
  · rintro ⟨w, hw, hmem⟩
    rcases List.mem_append.mp hmem with h1 | h2
    · rcases hpar : w.parentId with _ | p
      · rw [hpar] at h1
        cases h1
      · rw [hpar] at h1
        change i ∈ (if (p != 0 && wsHasId ws p) = true then [p] else []) at h1
        by_cases hc : p != 0 && wsHasId ws p
        · rw [if_pos hc] at h1
          have : i = p := List.mem_singleton.mp h1
          subst this
          have hc2 := (Bool.and_eq_true _ _).mp hc
          refine Or.inl ⟨w, hw, hpar, ?_, wsHasId_iff.mp hc2.2⟩
          simpa using hc2.1
        · rw [if_neg hc] at h1
          cases h1
    · by_cases hany : w.childrenIds.any fun c => wsHasId ws c
      · rw [if_pos hany] at h2
        have : i = w.id := List.mem_singleton.mp h2
        subst this
        obtain ⟨c, hcmem, hcid⟩ := List.any_eq_true.mp hany
        exact Or.inr ⟨w, hw, rfl, c, hcmem, wsHasId_iff.mp hcid⟩
      · rw [if_neg hany] at h2
        cases h2
  · rintro (⟨w, hw, hpar, hne, hmem⟩ | ⟨w, hw, hid, c, hcmem, hcid⟩)
    · refine ⟨w, hw, List.mem_append.mpr (Or.inl ?_)⟩
      rw [hpar]
      change i ∈ (if (i != 0 && wsHasId ws i) = true then [i] else [])
      rw [if_pos ((Bool.and_eq_true _ _).mpr ⟨by simpa using hne, wsHasId_iff.mpr hmem⟩)]
      exact List.mem_singleton.mpr rfl
    · refine ⟨w, hw, List.mem_append.mpr (Or.inr ?_)⟩
      rw [if_pos (List.any_eq_true.mpr ⟨c, hcmem, wsHasId_iff.mpr hcid⟩)]
      exact List.mem_singleton.mpr hid.symm


theorem jsRound_bounds {q : Rat} (h0 : 0 ≤ q) (h1 : q ≤ 100) :
    0 ≤ jsRound q ∧ jsRound q ≤ 100 := by
  constructor
  · exact Int.le_floor.mpr (by push_cast; linarith)
  · have h2 : jsRound q < 101 := Int.floor_lt.mpr (by push_cast; linarith)
    omega

theorem jsCeilDiv_eq_ceil (a : Int) {b : Int} (hb : 0 < b) :
    jsCeilDiv a b = Int.ceil ((a : Rat) / (b : Rat)) := by
  obtain ⟨n, rfl⟩ : ∃ n : ℕ, b = (n : ℤ) := ⟨b.toNat, (Int.toNat_of_nonneg hb.le).symm⟩
  rw [jsCeilDiv]
  calc -(-a / (n : ℤ)) = -Int.floor (((-a : ℤ) : Rat) / ((n : ℕ) : Rat)) := by
        rw [Rat.floor_intCast_div_natCast]
    _ = -Int.floor (-((a : Rat) / ((n : ℤ) : Rat))) := by
        rw [← neg_div]; push_cast; ring_nf
    _ = Int.ceil ((a : Rat) / ((n : ℤ) : Rat)) := by
        rw [Int.floor_neg, neg_neg]

theorem getWorkItemDates_eq : getWorkItemDates = calculateDates := rfl

theorem calculateDates_duration (clock : Int) (wi : WorkItem) :
    (calculateDates clock wi).2.2 =
      jsCeilDiv ((calculateDates clock wi).2.1 - (calculateDates clock wi).1)
        msPerDay := by
  rcases h1 : wi.startDate with _ | s <;> rcases h2 : wi.targetDate with _ | t <;>
    simp [calculateDates, h1, h2]

theorem midpoint_lt_end {s e : Int} (hlt : s < e) :
    s + jsCeilDiv (e - s) msPerDay / 2 * msPerDay < e := by
  simp only [jsCeilDiv, msPerDay]
  omega

/-- C1: for every work record whose `createdDate` is present, date
resolution follows the priority rules of the spec (spec-side function
`specResolveDates`, which uses the rational ceiling), with the forced
minimum one-day span; consequently `effectiveEnd > effectiveStart`
strictly, and every row of every conversion satisfies it.  The equality
with the clock-free `specResolveDates` also shows the result does not read
the wall clock for such records. -/
theorem c1_date_resolution (clock : Int) (wi : WorkItem) (c : Int)
    (hc : wi.createdDate = some c) :
    calculateDates clock wi = specResolveDates wi c ∧
    (calculateDates clock wi).1 < (calculateDates clock wi).2.1 ∧
    ∀ (ws : List WorkItem), ∀ g ∈ convertToGanttItems clock ws,
      g.start < g.endMs := by
  refine ⟨?_, calculateDates_lt clock wi, ?_⟩
  · have hms : (0 : Int) < msPerDay := by norm_num [msPerDay]
    rcases h1 : wi.startDate with _ | s <;> rcases h2 : wi.targetDate with _ | t <;>
      simp [calculateDates, specResolveDates, h1, h2, hc, jsCeilDiv_eq_ceil _ hms]
  · intro ws g hg
    obtain ⟨w, _, rfl⟩ := convertLoop_shape clock ws ws [] g (fun _ h => h)
      ((convert_perm clock ws).mem_iff.mp hg)
    exact calculateDates_lt clock w

theorem c1_date_resolution_witness :
    exSameDates.createdDate = some 1767225600000 ∧
    calculateDates 0 exSameDates = specResolveDates exSameDates 1767225600000 ∧
    calculateDates 0 exSameDates = (1767225600000, 1767312000000, 1) :=
  ⟨rfl, (c1_date_resolution 0 exSameDates 1767225600000 rfl).1, by decide⟩

theorem calculateProgress_fallthrough (wi : WorkItem)
    (h1 : wi.state ≠ "New") (h2 : wi.state ≠ "To Do") (h3 : wi.state ≠ "Resolved")
    (h4 : wi.state ≠ "Closed") (h5 : wi.state ≠ "Done") (h6 : wi.state ≠ "Removed") :
    calculateProgress wi =
      match wi.completedWork, wi.remainingWork with
      | some c, some r => if 0 < c + r then jsRound (c / (c + r) * 100) else 50
      | _, _ => 50 := by
  simp [calculateProgress, h1, h2, h3, h4, h5, h6]

/-- C2 counterexample: the state "Committed" matches no case of the
`switch` of `calculateProgress` and falls through to the work-calculation
default 50 — not the 0 the claim asserts for unknown states. -/
theorem c2_counterexample :
    calculateProgress exUnknownState = 50 ∧ (50 : Int) ≠ 0 := by
  constructor
  · simp [calculateProgress, exUnknownState, baseRecord]
  · decide

/-- C2 (amended): the state buckets as the code implements them; a state
matching no bucket falls through to the work-based calculation exactly
like the in-progress states `Active` and `Doing` (it does not yield 0). -/
theorem c2_progress_buckets (wi : WorkItem) :
    ((wi.state = "New" ∨ wi.state = "To Do") → calculateProgress wi = 0) ∧
    ((wi.state = "Closed" ∨ wi.state = "Done") → calculateProgress wi = 100) ∧
    (wi.state = "Resolved" → calculateProgress wi = 90) ∧
    (wi.state = "Removed" → calculateProgress wi = 0) ∧
    ((wi.state = "Active" ∨ wi.state = "Doing" ∨
        wi.state ∉ (["New", "To Do", "Resolved", "Closed", "Done", "Removed"] : List String)) →
      calculateProgress wi =
        match wi.completedWork, wi.remainingWork with
        | some c, some r => if 0 < c + r then jsRound (c / (c + r) * 100) else 50
        | _, _ => 50) := by
  refine ⟨?_, ?_, ?_, ?_, ?_⟩
  · rintro (h | h) <;> simp [calculateProgress, h]
  · rintro (h | h) <;> simp [calculateProgress, h]
  · intro h; simp [calculateProgress, h]
  · intro h; simp [calculateProgress, h]
  · rintro (h | h | h)
    · exact calculateProgress_fallthrough wi (by simp [h]) (by simp [h]) (by simp [h])
        (by simp [h]) (by simp [h]) (by simp [h])
    · exact calculateProgress_fallthrough wi (by simp [h]) (by simp [h]) (by simp [h])
        (by simp [h]) (by simp [h]) (by simp [h])
    · simp only [List.mem_cons, List.not_mem_nil, or_false, not_or] at h
      obtain ⟨e1, e2, e3, e4, e5, e6⟩ := h
      exact calculateProgress_fallthrough wi e1 e2 e3 e4 e5 e6

theorem c2_progress_buckets_witness :
    calculateProgress exActiveWork = 75 := by
  have h := (c2_progress_buckets exActiveWork).2.2.2.2 (Or.inl rfl)
  rw [h]
  show (if (0 : Rat) < 3 + 1 then jsRound (3 / (3 + 1) * 100) else 50) = 75
  rw [if_pos (by norm_num)]
  rw [show (3 : Rat) / (3 + 1) * 100 = 75 by norm_num]
  rw [jsRound]
  norm_num

/-- C3 counterexample: a negative completedWork drives the rounded ratio
far below 0, outside the claimed range. -/
theorem c3_counterexample :
    calculateProgress exNegWork = -100 ∧ (-100 : Int) < 0 := by
  constructor
  · have h := calculateProgress_fallthrough exNegWork (by decide) (by decide)
      (by decide) (by decide) (by decide) (by decide)
    rw [h]
    show (if (0 : Rat) < -1 + 2 then jsRound (-1 / (-1 + 2) * 100) else 50) = -100
    rw [if_pos (by norm_num)]
    rw [show (-1 : Rat) / (-1 + 2) * 100 = -100 by norm_num]
    rw [jsRound]
    norm_num
  · decide

/-- C3 (amended): the 0–100 bound holds for every record whose work
fields, where present, are nonnegative; negative work values escape it
(see the counterexample). -/
theorem c3_percent_bounds (wi : WorkItem)
    (hc : ∀ q : Rat, wi.completedWork = some q → 0 ≤ q)
    (hr : ∀ q : Rat, wi.remainingWork = some q → 0 ≤ q) :
    0 ≤ calculateProgress wi ∧ calculateProgress wi ≤ 100 := by
  rw [calculateProgress]
  split_ifs with h1 h2 h3 h4
  · norm_num
  · norm_num
  · norm_num
  · norm_num
  · rcases hcw : wi.completedWork with _ | c <;>
      rcases hrw : wi.remainingWork with _ | r <;> simp [hcw, hrw]
    have hc0 : 0 ≤ c := hc c hcw
    have hr0 : 0 ≤ r := hr r hrw
    by_cases hlt : 0 < c + r
    · rw [if_pos hlt]
      have hle : c / (c + r) ≤ 1 := (div_le_one hlt).mpr (by linarith)
      have h100 : c / (c + r) * 100 ≤ 100 := by
        calc c / (c + r) * 100 ≤ 1 * 100 :=
              mul_le_mul_of_nonneg_right hle (by norm_num)
          _ = 100 := by norm_num
      exact jsRound_bounds (mul_nonneg (div_nonneg hc0 hlt.le) (by norm_num)) h100
    · rw [if_neg hlt]
      norm_num

theorem c3_percent_bounds_witness :
    0 ≤ calculateProgress exExtremeWork ∧ calculateProgress exExtremeWork ≤ 100 :=
  c3_percent_bounds exExtremeWork
    (fun q hq => by cases hq; norm_num)
    (fun q hq => by cases hq; norm_num)

/-- C4 counterexample: for the odd duration 5 the midpoint of the code is
start + 2 whole days (the `setDate` argument is truncated), not the
fractional start + 2.5 days of the claim.  At `now` = start + 2 days + 6
hours (194400000 ms) the instant lies strictly below the claimed
fractional midpoint `0 + 0.5 × 5 × 86400000`, so the claim requires
"On Track", but the code returns "At Risk". -/
theorem c4_counterexample :
    getWorkItemDates 194400000 exOddDuration = (0, 432000000, 5) ∧
    calculateProgressStatus 194400000 exOddDuration = "At Risk" ∧
    ((194400000 : Rat) < 0 + 1 / 2 * 5 * 86400000) ∧
    "At Risk" ≠ "On Track" :=
  ⟨by decide, by decide, by norm_num, by decide⟩

/-- C4 (amended): health classification with the midpoint at
effectiveStart + ⌊durationDays / 2⌋ whole days (the fractional half day is
truncated by `setDate`); done bucket (Closed, Resolved) short-circuits to
Done, New yields Not Started, otherwise now ≥ effectiveEnd gives
Off Track, midpoint ≤ now < effectiveEnd gives At Risk, and
now < midpoint gives On Track. -/
theorem c4_health_classification (clock : Int) (wi : WorkItem) :
    ((wi.state = "Closed" ∨ wi.state = "Resolved") →
      calculateProgressStatus clock wi = "Done") ∧
    (wi.state ≠ "Closed" → wi.state ≠ "Resolved" → wi.state = "New" →
      calculateProgressStatus clock wi = "Not Started") ∧
    (wi.state ≠ "Closed" → wi.state ≠ "Resolved" → wi.state ≠ "New" →
      ∀ s e d : Int, getWorkItemDates clock wi = (s, e, d) →
        ((e ≤ clock → calculateProgressStatus clock wi = "Off Track") ∧
         (s + d / 2 * msPerDay ≤ clock → clock < e →
           calculateProgressStatus clock wi = "At Risk") ∧
         (clock < s + d / 2 * msPerDay →
           calculateProgressStatus clock wi = "On Track"))) := by
  refine ⟨?_, ?_, ?_⟩
  · intro h
    rw [calculateProgressStatus, if_pos h]
  · intro h1 h2 h3
    rw [calculateProgressStatus, if_neg (by rintro (h | h); exacts [h1 h, h2 h]),
      if_pos h3]
  · intro h1 h2 h3 s e d hsed
    have hse : s < e := by
      have h := calculateDates_lt clock wi
      rw [← getWorkItemDates_eq, hsed] at h
      exact h
    have hd : d = jsCeilDiv (e - s) msPerDay := by
      have h := calculateDates_duration clock wi
      rw [← getWorkItemDates_eq, hsed] at h
      exact h
    have hmids : s + d / 2 * msPerDay < e := by
      rw [hd]; exact midpoint_lt_end hse
    refine ⟨?_, ?_, ?_⟩
    · intro hoff
      rw [calculateProgressStatus, if_neg (by rintro (h | h); exacts [h1 h, h2 h]),
        if_neg h3]
      simp only [hsed]
      rw [if_pos hoff]
    · intro hm hlt
      rw [calculateProgressStatus, if_neg (by rintro (h | h); exacts [h1 h, h2 h]),
        if_neg h3]
      simp only [hsed]
      rw [if_neg (not_le.mpr hlt), if_pos ⟨hm, hlt⟩]
    · intro hm
      rw [calculateProgressStatus, if_neg (by rintro (h | h); exacts [h1 h, h2 h]),
        if_neg h3]
      simp only [hsed]
      rw [if_neg (not_le.mpr (hm.trans hmids)),
        if_neg (fun hx => absurd hx.1 (not_le.mpr hm))]

theorem c4_health_classification_witness :
    calculateProgressStatus 1768003200000 exJanuary = "On Track" ∧
    calculateProgressStatus 1768867200000 exJanuary = "At Risk" ∧
    calculateProgressStatus 1770249600000 exJanuary = "Off Track" ∧
    calculateProgressStatus 1768003200000 exJanuaryClosed = "Done" :=
  ⟨(((c4_health_classification 1768003200000 exJanuary).2.2 (by decide) (by decide)
      (by decide) 1767225600000 1769817600000 30 (by decide)).2.2 (by decide)),
   (((c4_health_classification 1768867200000 exJanuary).2.2 (by decide) (by decide)
      (by decide) 1767225600000 1769817600000 30 (by decide)).2.1 (by decide)
      (by decide)),
   (((c4_health_classification 1770249600000 exJanuary).2.2 (by decide) (by decide)
      (by decide) 1767225600000 1769817600000 30 (by decide)).1 (by decide)),
   ((c4_health_classification 1768003200000 exJanuaryClosed).1 (Or.inl rfl))⟩

/-- C5 (code bug): `calculateProgressStatus` reads the wall clock
internally (`const currentDate = new Date()`, src/unnamed/part_003 line
246, modelled by the `clock` argument), so two invocations on the very
same record give different results as wall time advances: the output is
not a function of the input record, refuting the claim that the current
time is supplied by the caller and that repeated calls are deep-equal. -/
theorem c5_wall_clock_dependence :
    calculateProgressStatus 1768003200000 exJanuary = "On Track" ∧
    calculateProgressStatus 1768867200000 exJanuary = "At Risk" ∧
    calculateProgressStatus 1768003200000 exJanuary ≠
      calculateProgressStatus 1768867200000 exJanuary :=
  ⟨by decide, by decide, by decide⟩

theorem intRange_append (b : Nat) :
    ∀ (a : Nat) (n : Int),
      intRange n (a + b) = intRange n a ++ intRange (n + (a : Int)) b := by
  intro a
  induction a with
  | zero => intro n; simp [intRange]
  | succ a ih =>
    intro n
    have h1 : a + 1 + b = (a + b) + 1 := by omega
    rw [h1]
    show n :: intRange (n + 1) (a + b) = (n :: intRange (n + 1) a) ++ _
    rw [List.cons_append, ih (n + 1)]
    have h2 : n + 1 + (a : Int) = n + ((a : Nat) + 1 : Nat) := by push_cast; ring
    rw [h2]

theorem linksForItem_pairs (ids : List Int) (wi : WorkItem) :
    ∀ (preds : List Int) (n : Int),
      ((linksForItem ids wi preds n).map fun l => (l.source, l.target)) =
        ((preds.filter fun p => ids.contains p && ids.contains wi.id).map
          fun p => (p, wi.id)) := by
  intro preds
  induction preds with
  | nil => intro n; rfl
  | cons p ps ih =>
    intro n
    by_cases hc : ids.contains p && ids.contains wi.id
    · rw [linksForItem, if_pos hc, List.map_cons, ih (n + 1),
        List.filter_cons, if_pos hc]
      rfl
    · rw [linksForItem, if_neg hc, ih n, List.filter_cons, if_neg hc]

theorem linksForItem_ids (ids : List Int) (wi : WorkItem) :
    ∀ (preds : List Int) (n : Int),
      ((linksForItem ids wi preds n).map fun l => l.id) =
        intRange n (linksForItem ids wi preds n).length := by
  intro preds
  induction preds with
  | nil => intro n; rfl
  | cons p ps ih =>
    intro n
    by_cases hc : ids.contains p && ids.contains wi.id
    · simp only [linksForItem, hc, if_true, List.map_cons, List.length_cons]
      rw [ih (n + 1)]
      rfl
    · simp only [Bool.not_eq_true] at hc
      simp only [linksForItem, hc, Bool.false_eq_true, if_false]
      exact ih n
  
theorem linksForItem_type (ids : List Int) (wi : WorkItem) :
    ∀ (preds : List Int) (n : Int),
      ∀ l ∈ linksForItem ids wi preds n, l.type = "e2s" := by
  intro preds
  induction preds with
  | nil => intro n l hl; cases hl
  | cons p ps ih =>
    intro n l hl
    by_cases hc : ids.contains p && ids.contains wi.id
    · rw [linksForItem, if_pos hc] at hl
      rcases List.mem_cons.mp hl with rfl | h2
      · rfl
      · exact ih (n + 1) l h2
    · rw [linksForItem, if_neg hc] at hl
      exact ih n l hl

theorem extractLoop_pairs (ids : List Int) :
    ∀ (ws : List WorkItem) (n : Int),
      ((extractLoop ids ws n).map fun l => (l.source, l.target)) =
        ws.flatMap fun wi =>
          ((wi.predecessors.filter fun p => ids.contains p && ids.contains wi.id).map
            fun p => (p, wi.id)) := by
  intro ws
  induction ws with
  | nil => intro n; rfl
  | cons wi rest ih =>
    intro n
    rw [extractLoop, List.map_append, List.flatMap_cons, linksForItem_pairs, ih]

theorem extractLoop_ids (ids : List Int) :
    ∀ (ws : List WorkItem) (n : Int),
      ((extractLoop ids ws n).map fun l => l.id) =
        intRange n (extractLoop ids ws n).length := by
  intro ws
  induction ws with
  | nil => intro n; rfl
  | cons wi rest ih =>
    intro n
    rw [extractLoop, List.map_append, List.length_append, intRange_append,
      linksForItem_ids, ih]

theorem extractLoop_type (ids : List Int) :
    ∀ (ws : List WorkItem) (n : Int), ∀ l ∈ extractLoop ids ws n, l.type = "e2s" := by
  intro ws
  induction ws with
  | nil => intro n l hl; cases hl
  | cons wi rest ih =>
    intro n l hl
    rw [extractLoop] at hl
    rcases List.mem_append.mp hl with h1 | h2
    · exact linksForItem_type ids wi wi.predecessors n l h1
    · exact ih _ l h2

/-- C6: the dependency extractor emits exactly one finish-to-start edge
(source, target) per occurrence of a predecessor id in the predecessors list of a record,
iff both endpoints are among the converted row ids, in the iteration
order of the input collection, and the edge ids are the counter values
1, 2, 3, …. -/
theorem c6_dependency_edges (ws : List WorkItem) (items : List GanttItem) :
    (((extractGanttLinks ws items).map fun l => (l.source, l.target)) =
      ws.flatMap fun wi =>
        ((wi.predecessors.filter fun p =>
            (items.map fun i => i.id).contains p &&
              (items.map fun i => i.id).contains wi.id).map
          fun p => (p, wi.id))) ∧
    (((extractGanttLinks ws items).map fun l => l.id) =
      intRange 1 (extractGanttLinks ws items).length) ∧
    ∀ l ∈ extractGanttLinks ws items, l.type = "e2s" :=
  ⟨extractLoop_pairs _ ws 1, extractLoop_ids _ ws 1, extractLoop_type _ ws 1⟩

theorem c6_dependency_edges_witness :
    (((extractGanttLinks wsLinks (convertToGanttItems 0 wsLinks)).map
        fun l => (l.source, l.target)) = [(2, 1), (1, 1), (1, 2)]) ∧
    (((extractGanttLinks wsLinks (convertToGanttItems 0 wsLinks)).map
        fun l => l.id) = [1, 2, 3]) ∧
    ∀ l ∈ extractGanttLinks wsLinks (convertToGanttItems 0 wsLinks),
      l.type = "e2s" := by
  have h := c6_dependency_edges wsLinks (convertToGanttItems 0 wsLinks)
  exact ⟨by rw [h.1]; decide, by rw [h.2.1]; decide, h.2.2⟩

/-- C7: a record whose parentId refers outside the working set still
produces a row (never dropped) and the parent of that row is the root sentinel
0.  Record ids are unique per the data model ("id (unique, stable)"). -/
theorem c7_orphan_parent (clock : Int) (ws : List WorkItem) (wi : WorkItem)
    (p : Int) (hnd : (ws.map fun w => w.id).Nodup) (hmem : wi ∈ ws)
    (hpar : wi.parentId = some p) (habs : p ∉ ws.map fun w => w.id) :
    ∃ g ∈ convertToGanttItems clock ws, g.id = wi.id ∧ g.parent = 0 := by
  rcases convertLoop_covers clock ws ws [] wi hmem with h | h
  · obtain ⟨g, hg, hgid⟩ := List.mem_map.mp h
    obtain ⟨x, hx, rfl⟩ := convertLoop_shape clock ws ws [] g (fun _ hq => hq) hg
    have hxwi : x = wi := List.inj_on_of_nodup_map hnd hx hmem hgid
    subst hxwi
    refine ⟨rowFor clock ws x, (convert_perm clock ws).mem_iff.mpr hg, rfl, ?_⟩
    show validParentOf ws x = 0
    rw [validParentOf, hpar]
    have hws : ¬ wsHasId ws p = true := fun hq => habs (wsHasId_iff.mp hq)
    change (if (p != 0 && wsHasId ws p) = true then p else 0) = 0
    rw [if_neg (fun hq => hws ((Bool.and_eq_true _ _).mp hq).2)]
  · cases h

theorem c7_orphan_parent_witness :
    ∃ g ∈ convertToGanttItems 0 wsOrphan, g.id = 5 ∧ g.parent = 0 :=
  c7_orphan_parent 0 wsOrphan
    { baseRecord with id := 5, parentId := some 99999 } 99999
    (by decide) (by decide) (by decide) (by decide)

/-- C9 counterexample: record 1 lists record 2 in childrenIds, so its row
is rendered as a summary although the parent field of no other row points
at it — the claimed "iff some other row has this id as parent" fails. -/
theorem c9_counterexample :
    ∃ g ∈ convertToGanttItems 0 wsChildrenOnly, g.type = "summary" ∧
      ∀ g2 ∈ convertToGanttItems 0 wsChildrenOnly, g2.parent ≠ g.id := by
  decide

/-- C9 (amended): a row is a summary iff the input declares children for
it: either the truthy parentId of some record equals the row id and that id
is present in the working set, or the own record of the row lists a childrenIds
entry that is present in the working set; otherwise the row is a task. -/
theorem c9_summary_rows (clock : Int) (ws : List WorkItem) (g : GanttItem)
    (hg : g ∈ convertToGanttItems clock ws) :
    (g.type = "summary" ↔
      ((∃ w ∈ ws, w.parentId = some g.id ∧ g.id ≠ 0 ∧
          (g.id ∈ ws.map fun x => x.id)) ∨
        (∃ w ∈ ws, w.id = g.id ∧ ∃ c ∈ w.childrenIds,
          c ∈ ws.map fun x => x.id))) ∧
    (g.type = "summary" ∨ g.type = "task") := by
  obtain ⟨w, hw, rfl⟩ := convertLoop_shape clock ws ws [] g (fun _ hq => hq)
    ((convert_perm clock ws).mem_iff.mp hg)
  have htype : (rowFor clock ws w).type =
      if (parentIdsList ws).contains w.id then "summary" else "task" := rfl
  have hid : (rowFor clock ws w).id = w.id := rfl
  rw [htype, hid]
  by_cases hc : (parentIdsList ws).contains w.id
  · rw [if_pos hc]
    exact ⟨⟨fun _ => mem_parentIdsList.mp (containsInt_iff.mp hc), fun _ => rfl⟩,
      Or.inl rfl⟩
  · rw [if_neg hc]
    refine ⟨⟨fun h => absurd h (by decide), fun hr => ?_⟩, Or.inr rfl⟩
    exact absurd (containsInt_iff.mpr (mem_parentIdsList.mpr hr)) hc

theorem c9_summary_rows_witness :
    exSummaryRow.type = "summary" :=
  ((c9_summary_rows 0 wsChildrenOnly exSummaryRow (by decide)).1).mpr (by decide)

/-- C10: conversion outputs exactly one row per distinct input record id
and no other rows, for every input including ones with duplicate ids: the
output id list is duplicate-free and has the same members as the input id
list. -/
theorem c10_output_ids (clock : Int) (ws : List WorkItem) :
    ((convertToGanttItems clock ws).map fun g => g.id).Nodup ∧
    ∀ i : Int, ((i ∈ (convertToGanttItems clock ws).map fun g => g.id) ↔
      i ∈ ws.map fun w => w.id) := by
  have hperm : ((convertToGanttItems clock ws).map fun g => g.id).Perm
      ((convertLoop clock ws ws []).map fun g => g.id) :=
    (convert_perm clock ws).map _
  constructor
  · exact hperm.nodup_iff.mpr (convertLoop_nodup clock ws ws []).1
  · intro i
    rw [hperm.mem_iff]
    constructor
    · intro h
      obtain ⟨g, hg, rfl⟩ := List.mem_map.mp h
      obtain ⟨w, hw, rfl⟩ := convertLoop_shape clock ws ws [] g (fun _ hq => hq) hg
      exact List.mem_map.mpr ⟨w, hw, rfl⟩
    · intro h
      obtain ⟨w, hw, rfl⟩ := List.mem_map.mp h
      rcases convertLoop_covers clock ws ws [] w hw with h2 | h2
      · exact h2
      · cases h2

/-- C8: iteration macro resolution: a non-matching input is returned
unchanged; otherwise the current index is the first period flagged
current, falling back to the period containing now; no determinable
current period or an out-of-bounds target index yields null; otherwise
the path of the target period is returned.  Over the calendar
[S1 (not current), S2 (current), S3], the bare marker resolves to S2,
marker-1 to S1, marker+1 to S3 and marker+2 to null. -/
theorem c8_iteration_resolution (now : Int) (its : List IterationInfo)
    (s : String) :
    (findMarkerOffset s.toList = none → resolveIteration now its s = some s) ∧
    (∀ off : Int, findMarkerOffset s.toList = some off →
      (specCurrentIndex now its = none → resolveIteration now its s = none) ∧
      (∀ i : Nat, specCurrentIndex now its = some i →
        (((i : Int) + off < 0 ∨ (its.length : Int) ≤ (i : Int) + off) →
          resolveIteration now its s = none) ∧
        (0 ≤ (i : Int) + off → (i : Int) + off < (its.length : Int) →
          ∀ h : ((i : Int) + off).toNat < its.length,
            resolveIteration now its s =
              some (its.get ⟨((i : Int) + off).toNat, h⟩).path))) ∧
    (resolveIteration 0 calThree "@CurrentIteration" = some "S2" ∧
      resolveIteration 0 calThree "@CurrentIteration-1" = some "S1" ∧
      resolveIteration 0 calThree "@CurrentIteration+1" = some "S3" ∧
      resolveIteration 0 calThree "@CurrentIteration+2" = none) := by
  refine ⟨?_, ?_, by decide, by decide, by decide, by decide⟩
  · intro h
    rw [resolveIteration, h]
  · intro off hoff
    have hoff2 : findMarkerOffset s.data = some off := hoff
    constructor
    · intro hcur
      have hfc : findCurrentIdx its = none := by
        rcases hh : findCurrentIdx its with _ | j
        · rfl
        · simp [specCurrentIndex, hh] at hcur
      have hfa : findActiveIdx now its = none := by
        simpa [specCurrentIndex, hfc] using hcur
      by_cases hemp : its.isEmpty
      · simp [resolveIteration, hoff, hoff2, hemp]
      · simp only [Bool.not_eq_true] at hemp
        simp [resolveIteration, hoff, hoff2, hemp, hfc, hfa]
    · intro i hcur
      rcases hfc : findCurrentIdx its with _ | j
      · have hfa : findActiveIdx now its = some i := by
          simpa [specCurrentIndex, hfc] using hcur
        have hne : its.isEmpty = false := by
          cases its with
          | nil => simp [findActiveIdx] at hfa
          | cons a l => rfl
        constructor
        · intro hout
          simp only [resolveIteration, hoff, hoff2, hne, Bool.false_eq_true, if_false,
            hfc, hfa]
          rw [if_pos hout]
        · intro h0 hlen h
          simp only [resolveIteration, hoff, hoff2, hne, Bool.false_eq_true, if_false,
            hfc, hfa]
          rw [if_neg (not_or.mpr ⟨not_lt.mpr h0, not_le.mpr hlen⟩),
            List.get?_eq_get h]
      · have hji : j = i := by
          simpa [specCurrentIndex, hfc] using hcur
        subst hji
        have hne : its.isEmpty = false := by
          cases its with
          | nil => simp [findCurrentIdx] at hfc
          | cons a l => rfl
        constructor
        · intro hout
          simp only [resolveIteration, hoff, hoff2, hne, Bool.false_eq_true, if_false,
            hfc]
          rw [if_pos hout]
        · intro h0 hlen h
          simp only [resolveIteration, hoff, hoff2, hne, Bool.false_eq_true, if_false,
            hfc]
          rw [if_neg (not_or.mpr ⟨not_lt.mpr h0, not_le.mpr hlen⟩),
            List.get?_eq_get h]

theorem c8_iteration_resolution_witness :
    resolveIteration 0 calThree "Project-Alpha-Sprint-9" =
      some "Project-Alpha-Sprint-9" :=
  (c8_iteration_resolution 0 calThree "Project-Alpha-Sprint-9").1 (by decide)

end AdoGantt
